import Mathlib

/-!
Verification development for the LVRM repository.

The parser component is declared in parser.h; its implementation file is
not part of the available sources, so the parser operations below are
modelled from the specification text (sections 4.1 to 4.4). The ADC
computations are embedded from src/src/peripherals/adc.c. Bytes are
modelled as natural numbers (ASCII codes); machine integer wrap-around is
made explicit with mod 2 to the relevant power where it matters.
-/

namespace LVRM

/-- Parameter type tag, from PARSER_ParameterType in parser.h. -/
inductive PARSER_ParameterType where
  | PARSER_PARAMETER_TYPE_BOOLEAN
  | PARSER_PARAMETER_TYPE_HEXADECIMAL
  | PARSER_PARAMETER_TYPE_DECIMAL
deriving DecidableEq

/-- Status codes, from PARSER_Status in parser.h: one success code and
thirteen failure codes. -/
inductive PARSER_Status where
  | PARSER_SUCCESS
  | PARSER_ERROR_UNKNOWN_COMMAND
  | PARSER_ERROR_MODE
  | PARSER_ERROR_HEADER_NOT_FOUND
  | PARSER_ERROR_SEPARATOR_NOT_FOUND
  | PARSER_ERROR_PARAMETER_NOT_FOUND
  | PARSER_ERROR_PARAMETER_BIT_INVALID
  | PARSER_ERROR_PARAMETER_BIT_OVERFLOW
  | PARSER_ERROR_PARAMETER_HEXA_INVALID
  | PARSER_ERROR_PARAMETER_HEXA_OVERFLOW
  | PARSER_ERROR_PARAMETER_HEXA_ODD_SIZE
  | PARSER_ERROR_PARAMETER_DEC_INVALID
  | PARSER_ERROR_PARAMETER_DEC_OVERFLOW
  | PARSER_ERROR_PARAMETER_BYTE_ARRAY_INVALID_LENGTH
deriving DecidableEq

/-- Parser modes, from PARSER_mode_t in parser.h. PARSER_MODE_LAST is the
count sentinel, outside the closed set of valid modes. -/
inductive PARSER_mode_t where
  | PARSER_MODE_COMMAND
  | PARSER_MODE_HEADER
  | PARSER_MODE_LAST
deriving DecidableEq

/-- Modelled from the spec: the ParserContext of section 3 (PARSER_Context
in parser.h). rx_buf holds the valid bytes of the receive buffer, so the
length field of the C structure is rx_buf.length here; start_idx is the
cursor. The separator_idx scratch field is stated by the spec to be
meaningless across calls and is kept local to each operation. -/
structure PARSER_Context where
  rx_buf : List Nat
  start_idx : Nat
deriving DecidableEq

/-- Modelled from the spec: section 4.1, PARSER_compare (implementation
file absent from the sources). The expected literal is passed without its
null terminator. The designated header/command separator character is the
hsep parameter, kept abstract since the spec does not fix it. The C
function mutates the context through a pointer; here the updated context
is returned next to the status. -/
def PARSER_compare (hsep : Nat) (parser_ctx : PARSER_Context)
    (mode : PARSER_mode_t) (command : List Nat) :
    PARSER_Status × PARSER_Context :=
  match mode with
  | .PARSER_MODE_COMMAND =>
    if (parser_ctx.rx_buf.drop parser_ctx.start_idx).take command.length = command then
      (.PARSER_SUCCESS,
        { parser_ctx with start_idx := parser_ctx.start_idx + command.length })
    else
      (.PARSER_ERROR_UNKNOWN_COMMAND, parser_ctx)
  | .PARSER_MODE_HEADER =>
    if (parser_ctx.rx_buf.drop parser_ctx.start_idx).take command.length = command ∧
        parser_ctx.rx_buf.get? (parser_ctx.start_idx + command.length) = some hsep then
      (.PARSER_SUCCESS,
        { parser_ctx with start_idx := parser_ctx.start_idx + command.length + 1 })
    else
      (.PARSER_ERROR_HEADER_NOT_FOUND, parser_ctx)
  | .PARSER_MODE_LAST => (.PARSER_ERROR_MODE, parser_ctx)

/-- The success condition of PARSER_compare as stated by the spec: the
bytes at the cursor equal the literal byte-for-byte, in Header mode the
byte right after the literal is the designated separator, and the mode is
inside the closed set. -/
def compareMatchCond (hsep : Nat) (parser_ctx : PARSER_Context)
    (mode : PARSER_mode_t) (command : List Nat) : Prop :=
  (parser_ctx.rx_buf.drop parser_ctx.start_idx).take command.length = command ∧
  (mode = .PARSER_MODE_HEADER →
    parser_ctx.rx_buf.get? (parser_ctx.start_idx + command.length) = some hsep) ∧
  mode ≠ .PARSER_MODE_LAST

/-- The mode-specific non-success code of PARSER_compare. -/
def compareErrorCode : PARSER_mode_t → PARSER_Status
  | .PARSER_MODE_COMMAND => .PARSER_ERROR_UNKNOWN_COMMAND
  | .PARSER_MODE_HEADER => .PARSER_ERROR_HEADER_NOT_FOUND
  | .PARSER_MODE_LAST => .PARSER_ERROR_MODE

/-- C1: with the literal not exceeding the remaining buffer length, if the
bytes at the cursor equal the literal and, in Header mode, the byte at
cursor + length equals the designated separator, PARSER_compare returns
PARSER_SUCCESS and advances the cursor by the literal length (plus one in
Header mode); otherwise it returns the mode-specific non-success code and
leaves the cursor unchanged. -/
theorem C1_compare_spec (hsep : Nat) (parser_ctx : PARSER_Context)
    (mode : PARSER_mode_t) (command : List Nat)
    (hlen : parser_ctx.start_idx + command.length ≤ parser_ctx.rx_buf.length) :
    (compareMatchCond hsep parser_ctx mode command →
      (PARSER_compare hsep parser_ctx mode command).1 = .PARSER_SUCCESS ∧
      (PARSER_compare hsep parser_ctx mode command).2.start_idx =
        parser_ctx.start_idx + command.length +
          (if mode = .PARSER_MODE_HEADER then 1 else 0)) ∧
    (¬ compareMatchCond hsep parser_ctx mode command →
      (PARSER_compare hsep parser_ctx mode command).1 = compareErrorCode mode ∧
      (PARSER_compare hsep parser_ctx mode command).2.start_idx =
        parser_ctx.start_idx) := by
  cases mode with
  | PARSER_MODE_COMMAND =>
    constructor
    · intro hc
      obtain ⟨h1, _, _⟩ := hc
      simp only [PARSER_compare, if_pos h1]
      exact ⟨by trivial, by trivial⟩
    · intro hc
      have h1 : ¬ (parser_ctx.rx_buf.drop parser_ctx.start_idx).take command.length
          = command := by
        intro h
        exact hc ⟨h, by simp, by simp⟩
      simp only [PARSER_compare, if_neg h1]
      exact ⟨by trivial, by trivial⟩
  | PARSER_MODE_HEADER =>
    constructor
    · intro hc
      obtain ⟨h1, h2, _⟩ := hc
      simp only [PARSER_compare, if_pos (And.intro h1 (h2 rfl))]
      exact ⟨by trivial, by trivial⟩
    · intro hc
      have h1 : ¬ ((parser_ctx.rx_buf.drop parser_ctx.start_idx).take command.length
          = command ∧
          parser_ctx.rx_buf.get? (parser_ctx.start_idx + command.length) = some hsep) := by
        intro h
        exact hc ⟨h.1, fun _ => h.2, by simp⟩
      simp only [PARSER_compare, if_neg h1]
      exact ⟨by trivial, by trivial⟩
  | PARSER_MODE_LAST =>
    constructor
    · intro hc
      exact absurd rfl hc.2.2
    · intro _
      exact ⟨by trivial, by trivial⟩

/-- C1 witness: header mode match on the buffer "AT+C" with literal "AT"
and separator the plus character. -/
theorem C1_compare_spec_witness :
    (PARSER_compare 43 ⟨[65, 84, 43, 67], 0⟩ .PARSER_MODE_HEADER [65, 84]).1 =
        .PARSER_SUCCESS ∧
    (PARSER_compare 43 ⟨[65, 84, 43, 67], 0⟩ .PARSER_MODE_HEADER [65, 84]).2.start_idx = 3 := by
  have h := (C1_compare_spec 43 ⟨[65, 84, 43, 67], 0⟩ .PARSER_MODE_HEADER [65, 84]
    (by decide)).1 ⟨by decide, fun _ => by decide, by decide⟩
  exact ⟨h.1, h.2.trans (by decide)⟩

/-- Position of the first occurrence of sep in a byte list, scanning left
to right. -/
def scanSep (sep : Nat) : List Nat → Option Nat
  | [] => none
  | b :: rest => if b = sep then some 0 else (scanSep sep rest).map (· + 1)

/-- Modelled from the spec: section 4.2, shared extent resolution. Scans
forward from the cursor for the separator when last_param is false
(failure code PARSER_ERROR_SEPARATOR_NOT_FOUND when absent); when
last_param is true the extent runs to the end of the valid bytes and an
empty extent yields PARSER_ERROR_PARAMETER_NOT_FOUND. Returns the
exclusive end offset of the extent. -/
def resolveExtent (parser_ctx : PARSER_Context) (separator : Nat)
    (last_param : Bool) : Except PARSER_Status Nat :=
  if last_param then
    if parser_ctx.start_idx = parser_ctx.rx_buf.length then
      .error .PARSER_ERROR_PARAMETER_NOT_FOUND
    else
      .ok parser_ctx.rx_buf.length
  else
    match (scanSep separator (parser_ctx.rx_buf.drop parser_ctx.start_idx)).map
        (· + parser_ctx.start_idx) with
    | some j => .ok j
    | none => .error .PARSER_ERROR_SEPARATOR_NOT_FOUND

/-- The bytes of the resolved extent, from the cursor to the exclusive
end offset. -/
def extentBytes (parser_ctx : PARSER_Context) (e : Nat) : List Nat :=
  (parser_ctx.rx_buf.take e).drop parser_ctx.start_idx

/-- Modelled from the spec: section 4.2, cursor advance on decoder
success: to the end of the extent plus one (skipping the separator) when
not the last parameter, to the end of the extent when it is. -/
def advanceCursor (parser_ctx : PARSER_Context) (e : Nat)
    (last_param : Bool) : PARSER_Context :=
  { parser_ctx with start_idx := if last_param then e else e + 1 }

/-- ASCII hexadecimal digit test (0-9, A-F, a-f). -/
def isHexDigit (c : Nat) : Bool :=
  (48 ≤ c && c ≤ 57) || (65 ≤ c && c ≤ 70) || (97 ≤ c && c ≤ 102)

/-- Value of an ASCII hexadecimal digit. -/
def hexDigitValue (c : Nat) : Nat :=
  if c ≤ 57 then c - 48 else if c ≤ 70 then c - 55 else c - 87

/-- ASCII decimal digit test. -/
def isDecDigit (c : Nat) : Bool := 48 ≤ c && c ≤ 57

/-- Decodes pairs of hexadecimal digit characters into bytes; callers
check an even length first. -/
def hexBytes : List Nat → List Nat
  | a :: b :: rest => (16 * hexDigitValue a + hexDigitValue b) :: hexBytes rest
  | _ => []

/-- Value of a hexadecimal digit string, most significant digit first. -/
def hexValue (l : List Nat) : Nat := l.foldl (fun acc c => 16 * acc + hexDigitValue c) 0

/-- Value of a decimal digit string, most significant digit first. -/
def decValue (l : List Nat) : Nat := l.foldl (fun acc c => 10 * acc + hexDigitValue c) 0

/-- Modelled from the spec: section 4.3, boolean decoder. The extent must
be exactly one character, ASCII 48 or 49; a longer extent yields the
overflow code, anything else the invalid code. -/
def decodeBoolean (ext : List Nat) : Except PARSER_Status Int :=
  if 1 < ext.length then .error .PARSER_ERROR_PARAMETER_BIT_OVERFLOW
  else
    match ext with
    | [c] =>
      if c = 48 then .ok 0
      else if c = 49 then .ok 1
      else .error .PARSER_ERROR_PARAMETER_BIT_INVALID
    | _ => .error .PARSER_ERROR_PARAMETER_BIT_INVALID

/-- Modelled from the spec: section 4.3, hexadecimal decoder. Length must
be even, all characters valid hexadecimal digits, and the value must fit
the 32-bit destination (at most eight digits). -/
def decodeHexadecimal (ext : List Nat) : Except PARSER_Status Int :=
  if ext.length % 2 = 1 then .error .PARSER_ERROR_PARAMETER_HEXA_ODD_SIZE
  else if ¬ (ext.all isHexDigit = true) then .error .PARSER_ERROR_PARAMETER_HEXA_INVALID
  else if 8 < ext.length then .error .PARSER_ERROR_PARAMETER_HEXA_OVERFLOW
  else .ok (hexValue ext)

/-- Modelled from the spec: section 4.3, decimal decoder. An optional
leading minus sign (ASCII 45), then decimal digits only; a magnitude
outside the signed 32-bit destination range yields the overflow code. -/
def decodeDecimal (ext : List Nat) : Except PARSER_Status Int :=
  let neg := ext.head? = some 45
  let digits := if neg then ext.tail else ext
  if digits.length = 0 then .error .PARSER_ERROR_PARAMETER_DEC_INVALID
  else if ¬ (digits.all isDecDigit = true) then .error .PARSER_ERROR_PARAMETER_DEC_INVALID
  else if neg then
    if decValue digits ≤ 2 ^ 31 then .ok (-(decValue digits : Int))
    else .error .PARSER_ERROR_PARAMETER_DEC_OVERFLOW
  else
    if decValue digits < 2 ^ 31 then .ok (decValue digits : Int)
    else .error .PARSER_ERROR_PARAMETER_DEC_OVERFLOW

/-- Modelled from the spec: section 4.3, selection of the typed decoder
by the ParameterKind tag. -/
def decodeByType (param_type : PARSER_ParameterType) (ext : List Nat) :
    Except PARSER_Status Int :=
  match param_type with
  | .PARSER_PARAMETER_TYPE_BOOLEAN => decodeBoolean ext
  | .PARSER_PARAMETER_TYPE_HEXADECIMAL => decodeHexadecimal ext
  | .PARSER_PARAMETER_TYPE_DECIMAL => decodeDecimal ext

/-- Modelled from the spec: sections 4.2 and 4.3, PARSER_get_parameter
(implementation file absent from the sources). Resolves the extent, runs
the typed decoder selected by param_type, and advances the cursor only on
success. The decoded value written through the int pointer in C is
returned last (0 on failure). -/
def PARSER_get_parameter (parser_ctx : PARSER_Context)
    (param_type : PARSER_ParameterType) (separator : Nat)
    (last_param : Bool) : PARSER_Status × PARSER_Context × Int :=
  match resolveExtent parser_ctx separator last_param with
  | .error st => (st, parser_ctx, 0)
  | .ok e =>
    match decodeByType param_type (extentBytes parser_ctx e) with
    | .error st => (st, parser_ctx, 0)
    | .ok v => (.PARSER_SUCCESS, advanceCursor parser_ctx e last_param, v)

/-- Modelled from the spec: section 4.4, PARSER_get_byte_array
(implementation file absent from the sources). Resolves the extent,
interprets it as a hexadecimal string (even length, valid digits), checks
the decoded byte count against max_length, and advances the cursor only
on success. Returns status, updated context, decoded bytes and the
extracted length (empty and 0 on failure). -/
def PARSER_get_byte_array (parser_ctx : PARSER_Context) (separator : Nat)
    (last_param : Bool) (max_length : Nat) :
    PARSER_Status × PARSER_Context × List Nat × Nat :=
  match resolveExtent parser_ctx separator last_param with
  | .error st => (st, parser_ctx, [], 0)
  | .ok e =>
    let ext := extentBytes parser_ctx e
    if ext.length % 2 = 1 then
      (.PARSER_ERROR_PARAMETER_HEXA_ODD_SIZE, parser_ctx, [], 0)
    else if ¬ (ext.all isHexDigit = true) then
      (.PARSER_ERROR_PARAMETER_HEXA_INVALID, parser_ctx, [], 0)
    else if max_length < ext.length / 2 then
      (.PARSER_ERROR_PARAMETER_BYTE_ARRAY_INVALID_LENGTH, parser_ctx, [], 0)
    else
      (.PARSER_SUCCESS, advanceCursor parser_ctx e last_param, hexBytes ext,
        ext.length / 2)

theorem scanSep_some_lt (sep : Nat) :
    ∀ (l : List Nat) (i : Nat), scanSep sep l = some i → i < l.length := by
  intro l
  induction l with
  | nil => intro i h; simp [scanSep] at h
  | cons b rest ih =>
    intro i h
    simp only [scanSep] at h
    by_cases hb : b = sep
    · rw [if_pos hb] at h
      injection h with h2
      simp only [List.length_cons]
      omega
    · rw [if_neg hb] at h
      rcases hsr : scanSep sep rest with _ | j
      · rw [hsr] at h
        exact Option.noConfusion h
      · rw [hsr] at h
        have h2 : j + 1 = i := by injection h
        have h3 := ih j hsr
        simp only [List.length_cons]
        omega

theorem scanSep_eq_none (sep : Nat) :
    ∀ l : List Nat, sep ∉ l → scanSep sep l = none := by
  intro l
  induction l with
  | nil => intro _; rfl
  | cons b rest ih =>
    intro h
    have hb : ¬ b = sep := fun hb => h (hb ▸ List.mem_cons_self b rest)
    have hr : sep ∉ rest := fun hr => h (List.mem_cons_of_mem b hr)
    simp [scanSep, hb, ih hr]

theorem resolveExtent_ok_le (parser_ctx : PARSER_Context) (separator : Nat)
    (last_param : Bool) (e : Nat)
    (h : resolveExtent parser_ctx separator last_param = .ok e) :
    e ≤ parser_ctx.rx_buf.length ∧
      (last_param = false → e < parser_ctx.rx_buf.length) := by
  unfold resolveExtent at h
  by_cases hl : last_param = true
  · rw [if_pos hl] at h
    by_cases hs : parser_ctx.start_idx = parser_ctx.rx_buf.length
    · rw [if_pos hs] at h
      exact Except.noConfusion h
    · rw [if_neg hs] at h
      injection h with h2
      subst h2
      refine ⟨le_refl _, fun hf => ?_⟩
      rw [hf] at hl
      exact Bool.noConfusion hl
  · rw [if_neg hl] at h
    rcases hsc : scanSep separator (parser_ctx.rx_buf.drop parser_ctx.start_idx) with _ | i
    · rw [hsc] at h
      exact Except.noConfusion h
    · rw [hsc] at h
      have hlt := scanSep_some_lt separator _ i hsc
      rw [List.length_drop] at hlt
      have h2 : i + parser_ctx.start_idx = e := by injection h
      constructor
      · omega
      · intro _
        omega


theorem compare_cursor_cases (hsep : Nat) (parser_ctx : PARSER_Context)
    (mode : PARSER_mode_t) (command : List Nat) :
    (PARSER_compare hsep parser_ctx mode command).1 = .PARSER_SUCCESS ∨
    (PARSER_compare hsep parser_ctx mode command).2 = parser_ctx := by
  cases mode with
  | PARSER_MODE_COMMAND =>
    simp only [PARSER_compare]
    split
    · exact Or.inl rfl
    · exact Or.inr rfl
  | PARSER_MODE_HEADER =>
    simp only [PARSER_compare]
    split
    · exact Or.inl rfl
    · exact Or.inr rfl
  | PARSER_MODE_LAST => exact Or.inr rfl

theorem get_parameter_cursor_cases (parser_ctx : PARSER_Context)
    (param_type : PARSER_ParameterType) (separator : Nat) (last_param : Bool) :
    (PARSER_get_parameter parser_ctx param_type separator last_param).1 = .PARSER_SUCCESS ∨
    (PARSER_get_parameter parser_ctx param_type separator last_param).2.1 = parser_ctx := by
  rcases hr : resolveExtent parser_ctx separator last_param with st | e
  · simp only [PARSER_get_parameter, hr]
    exact Or.inr trivial
  · rcases hd : decodeByType param_type (extentBytes parser_ctx e) with st | v
    · simp only [PARSER_get_parameter, hr, hd]
      exact Or.inr trivial
    · simp only [PARSER_get_parameter, hr, hd]
      exact Or.inl trivial

theorem get_byte_array_cursor_cases (parser_ctx : PARSER_Context)
    (separator : Nat) (last_param : Bool) (max_length : Nat) :
    (PARSER_get_byte_array parser_ctx separator last_param max_length).1 = .PARSER_SUCCESS ∨
    (PARSER_get_byte_array parser_ctx separator last_param max_length).2.1 = parser_ctx := by
  rcases hr : resolveExtent parser_ctx separator last_param with st | e
  · simp only [PARSER_get_byte_array, hr]
    exact Or.inr trivial
  · simp only [PARSER_get_byte_array, hr]
    split
    · exact Or.inr rfl
    · split
      · exact Or.inr rfl
      · split
        · exact Or.inr rfl
        · exact Or.inl rfl

/-- C2: whenever PARSER_compare, PARSER_get_parameter or
PARSER_get_byte_array returns a status other than PARSER_SUCCESS, the
cursor of the returned context equals the cursor before the call: the
cursor advances only on success. -/
theorem C2_cursor_atomicity (hsep : Nat) (parser_ctx : PARSER_Context)
    (mode : PARSER_mode_t) (command : List Nat)
    (param_type : PARSER_ParameterType) (separator : Nat) (last_param : Bool)
    (max_length : Nat) :
    ((PARSER_compare hsep parser_ctx mode command).1 ≠ .PARSER_SUCCESS →
      (PARSER_compare hsep parser_ctx mode command).2.start_idx =
        parser_ctx.start_idx) ∧
    ((PARSER_get_parameter parser_ctx param_type separator last_param).1 ≠ .PARSER_SUCCESS →
      (PARSER_get_parameter parser_ctx param_type separator last_param).2.1.start_idx =
        parser_ctx.start_idx) ∧
    ((PARSER_get_byte_array parser_ctx separator last_param max_length).1 ≠ .PARSER_SUCCESS →
      (PARSER_get_byte_array parser_ctx separator last_param max_length).2.1.start_idx =
        parser_ctx.start_idx) := by
  refine ⟨fun h => ?_, fun h => ?_, fun h => ?_⟩
  · rcases compare_cursor_cases hsep parser_ctx mode command with hc | hc
    · exact absurd hc h
    · rw [hc]
  · rcases get_parameter_cursor_cases parser_ctx param_type separator last_param with hc | hc
    · exact absurd hc h
    · rw [hc]
  · rcases get_byte_array_cursor_cases parser_ctx separator last_param max_length with hc | hc
    · exact absurd hc h
    · rw [hc]

/-- C2 witness: a failed command comparison leaves the cursor at 0. -/
theorem C2_cursor_atomicity_witness :
    (PARSER_compare 43 ⟨[65], 0⟩ .PARSER_MODE_COMMAND [66]).2.start_idx = 0 :=
  (C2_cursor_atomicity 43 ⟨[65], 0⟩ .PARSER_MODE_COMMAND [66]
    .PARSER_PARAMETER_TYPE_BOOLEAN 44 false 0).1 (by decide)

theorem resolveExtent_no_sep (parser_ctx : PARSER_Context) (separator : Nat)
    (h : separator ∉ parser_ctx.rx_buf.drop parser_ctx.start_idx) :
    resolveExtent parser_ctx separator false = .error .PARSER_ERROR_SEPARATOR_NOT_FOUND := by
  simp [resolveExtent, scanSep_eq_none separator _ h]

theorem resolveExtent_empty_last (parser_ctx : PARSER_Context) (separator : Nat)
    (h : parser_ctx.start_idx = parser_ctx.rx_buf.length) :
    resolveExtent parser_ctx separator true = .error .PARSER_ERROR_PARAMETER_NOT_FOUND := by
  simp [resolveExtent, h]

/-- C6: for both extraction operations, when last_param is false and the
separator does not occur between the cursor and the end of the valid
bytes the call fails with PARSER_ERROR_SEPARATOR_NOT_FOUND, and when
last_param is true and the extent is empty (cursor at end) it fails with
PARSER_ERROR_PARAMETER_NOT_FOUND; in both cases the returned context is
the unchanged input context. -/
theorem C6_extent_errors (parser_ctx : PARSER_Context)
    (param_type : PARSER_ParameterType) (separator : Nat) (max_length : Nat) :
    (separator ∉ parser_ctx.rx_buf.drop parser_ctx.start_idx →
      PARSER_get_parameter parser_ctx param_type separator false =
        (.PARSER_ERROR_SEPARATOR_NOT_FOUND, parser_ctx, 0) ∧
      PARSER_get_byte_array parser_ctx separator false max_length =
        (.PARSER_ERROR_SEPARATOR_NOT_FOUND, parser_ctx, [], 0)) ∧
    (parser_ctx.start_idx = parser_ctx.rx_buf.length →
      PARSER_get_parameter parser_ctx param_type separator true =
        (.PARSER_ERROR_PARAMETER_NOT_FOUND, parser_ctx, 0) ∧
      PARSER_get_byte_array parser_ctx separator true max_length =
        (.PARSER_ERROR_PARAMETER_NOT_FOUND, parser_ctx, [], 0)) := by
  constructor
  · intro h
    have hr := resolveExtent_no_sep parser_ctx separator h
    constructor
    · simp [PARSER_get_parameter, hr]
    · simp [PARSER_get_byte_array, hr]
  · intro h
    have hr := resolveExtent_empty_last parser_ctx separator h
    constructor
    · simp [PARSER_get_parameter, hr]
    · simp [PARSER_get_byte_array, hr]

/-- C6 witness: the buffer "12" holds no comma, so a non-last extraction
fails with the separator-not-found code and an unchanged context. -/
theorem C6_extent_errors_witness :
    PARSER_get_parameter ⟨[49, 50], 0⟩ .PARSER_PARAMETER_TYPE_DECIMAL 44 false =
      (.PARSER_ERROR_SEPARATOR_NOT_FOUND, ⟨[49, 50], 0⟩, 0) :=
  ((C6_extent_errors ⟨[49, 50], 0⟩ .PARSER_PARAMETER_TYPE_DECIMAL 44 8).1 (by decide)).1

/-- C4: on a resolved extent, boolean extraction decodes the single
character 0 to value 0 and 1 to value 1 with success, any other single
character to PARSER_ERROR_PARAMETER_BIT_INVALID, any extent longer than
one character to PARSER_ERROR_PARAMETER_BIT_OVERFLOW, and the two error
codes are distinct. -/
theorem C4_boolean_decoding (parser_ctx : PARSER_Context) (separator : Nat)
    (last_param : Bool) (e : Nat)
    (hr : resolveExtent parser_ctx separator last_param = .ok e) :
    (extentBytes parser_ctx e = [48] →
      PARSER_get_parameter parser_ctx .PARSER_PARAMETER_TYPE_BOOLEAN separator last_param =
        (.PARSER_SUCCESS, advanceCursor parser_ctx e last_param, 0)) ∧
    (extentBytes parser_ctx e = [49] →
      PARSER_get_parameter parser_ctx .PARSER_PARAMETER_TYPE_BOOLEAN separator last_param =
        (.PARSER_SUCCESS, advanceCursor parser_ctx e last_param, 1)) ∧
    (∀ c : Nat, extentBytes parser_ctx e = [c] → c ≠ 48 → c ≠ 49 →
      PARSER_get_parameter parser_ctx .PARSER_PARAMETER_TYPE_BOOLEAN separator last_param =
        (.PARSER_ERROR_PARAMETER_BIT_INVALID, parser_ctx, 0)) ∧
    (1 < (extentBytes parser_ctx e).length →
      PARSER_get_parameter parser_ctx .PARSER_PARAMETER_TYPE_BOOLEAN separator last_param =
        (.PARSER_ERROR_PARAMETER_BIT_OVERFLOW, parser_ctx, 0)) ∧
    PARSER_Status.PARSER_ERROR_PARAMETER_BIT_INVALID ≠
      PARSER_Status.PARSER_ERROR_PARAMETER_BIT_OVERFLOW := by
  refine ⟨fun hx => ?_, fun hx => ?_, fun c hx hc48 hc49 => ?_, fun hx => ?_, by decide⟩
  · simp [PARSER_get_parameter, hr, decodeByType, decodeBoolean, hx]
  · simp [PARSER_get_parameter, hr, decodeByType, decodeBoolean, hx]
  · simp [PARSER_get_parameter, hr, decodeByType, decodeBoolean, hx, hc48, hc49]
  · simp [PARSER_get_parameter, hr, decodeByType, decodeBoolean, hx]

/-- C4 witness: the buffer "1," decodes the boolean parameter 1 with
success and the cursor moved past the separator. -/
theorem C4_boolean_decoding_witness :
    PARSER_get_parameter ⟨[49, 44], 0⟩ .PARSER_PARAMETER_TYPE_BOOLEAN 44 false =
      (.PARSER_SUCCESS, ⟨[49, 44], 2⟩, 1) :=
  (C4_boolean_decoding ⟨[49, 44], 0⟩ 44 false 1 (by rfl)).2.1 (by decide)

/-- C5: on a resolved extent of odd length made of valid hexadecimal
digits, both hexadecimal extraction and byte-array extraction fail with
PARSER_ERROR_PARAMETER_HEXA_ODD_SIZE, the context is unchanged and no
value or bytes are produced. -/
theorem C5_hex_odd_size (parser_ctx : PARSER_Context) (separator : Nat)
    (last_param : Bool) (max_length : Nat) (e : Nat)
    (hr : resolveExtent parser_ctx separator last_param = .ok e)
    (hodd : (extentBytes parser_ctx e).length % 2 = 1)
    (hhex : (extentBytes parser_ctx e).all isHexDigit = true) :
    PARSER_get_parameter parser_ctx .PARSER_PARAMETER_TYPE_HEXADECIMAL separator last_param =
      (.PARSER_ERROR_PARAMETER_HEXA_ODD_SIZE, parser_ctx, 0) ∧
    PARSER_get_byte_array parser_ctx separator last_param max_length =
      (.PARSER_ERROR_PARAMETER_HEXA_ODD_SIZE, parser_ctx, [], 0) := by
  constructor
  · simp [PARSER_get_parameter, hr, decodeByType, decodeHexadecimal, hodd]
  · simp [PARSER_get_byte_array, hr, hodd]

/-- C5 witness: the last-parameter extent "ABC" is odd-length valid hex
and yields the odd-size error from both operations. -/
theorem C5_hex_odd_size_witness :
    PARSER_get_parameter ⟨[65, 66, 67], 0⟩ .PARSER_PARAMETER_TYPE_HEXADECIMAL 44 true =
      (.PARSER_ERROR_PARAMETER_HEXA_ODD_SIZE, ⟨[65, 66, 67], 0⟩, 0) ∧
    PARSER_get_byte_array ⟨[65, 66, 67], 0⟩ 44 true 8 =
      (.PARSER_ERROR_PARAMETER_HEXA_ODD_SIZE, ⟨[65, 66, 67], 0⟩, [], 0) :=
  C5_hex_odd_size ⟨[65, 66, 67], 0⟩ 44 true 8 3 (by rfl) (by decide) (by decide)

/-- All status codes of the parser, from PARSER_Status in parser.h, in
declaration order. -/
def PARSER_Status_codes : List PARSER_Status :=
  [.PARSER_SUCCESS,
   .PARSER_ERROR_UNKNOWN_COMMAND,
   .PARSER_ERROR_MODE,
   .PARSER_ERROR_HEADER_NOT_FOUND,
   .PARSER_ERROR_SEPARATOR_NOT_FOUND,
   .PARSER_ERROR_PARAMETER_NOT_FOUND,
   .PARSER_ERROR_PARAMETER_BIT_INVALID,
   .PARSER_ERROR_PARAMETER_BIT_OVERFLOW,
   .PARSER_ERROR_PARAMETER_HEXA_INVALID,
   .PARSER_ERROR_PARAMETER_HEXA_OVERFLOW,
   .PARSER_ERROR_PARAMETER_HEXA_ODD_SIZE,
   .PARSER_ERROR_PARAMETER_DEC_INVALID,
   .PARSER_ERROR_PARAMETER_DEC_OVERFLOW,
   .PARSER_ERROR_PARAMETER_BYTE_ARRAY_INVALID_LENGTH]

theorem PARSER_Status_complete (s : PARSER_Status) : s ∈ PARSER_Status_codes := by
  cases s <;> decide

/-- C7: the status type is a closed taxonomy of exactly fourteen distinct
codes, one success code plus thirteen failure codes, and each of the
three parser operations returns exactly one code of this taxonomy. -/
theorem C7_status_taxonomy :
    (∀ s : PARSER_Status, s ∈ PARSER_Status_codes) ∧
    PARSER_Status_codes.Nodup ∧
    PARSER_Status_codes.length = 14 ∧
    (∀ (hsep : Nat) (parser_ctx : PARSER_Context) (mode : PARSER_mode_t)
        (command : List Nat),
      (PARSER_compare hsep parser_ctx mode command).1 ∈ PARSER_Status_codes) ∧
    (∀ (parser_ctx : PARSER_Context) (param_type : PARSER_ParameterType)
        (separator : Nat) (last_param : Bool),
      (PARSER_get_parameter parser_ctx param_type separator last_param).1 ∈
        PARSER_Status_codes) ∧
    (∀ (parser_ctx : PARSER_Context) (separator : Nat) (last_param : Bool)
        (max_length : Nat),
      (PARSER_get_byte_array parser_ctx separator last_param max_length).1 ∈
        PARSER_Status_codes) :=
  ⟨PARSER_Status_complete, by decide, rfl,
   fun _ _ _ _ => PARSER_Status_complete _,
   fun _ _ _ _ => PARSER_Status_complete _,
   fun _ _ _ _ => PARSER_Status_complete _⟩

/-- The context invariant of the spec: the cursor never exceeds the number
of valid bytes. -/
def PARSER_wf (parser_ctx : PARSER_Context) : Prop :=
  parser_ctx.start_idx ≤ parser_ctx.rx_buf.length

theorem compare_wf (hsep : Nat) (parser_ctx : PARSER_Context)
    (mode : PARSER_mode_t) (command : List Nat) (h : PARSER_wf parser_ctx) :
    PARSER_wf (PARSER_compare hsep parser_ctx mode command).2 := by
  cases mode with
  | PARSER_MODE_COMMAND =>
    simp only [PARSER_compare]
    split
    · next hmatch =>
      have hlen := congrArg List.length hmatch
      rw [List.length_take, List.length_drop] at hlen
      have h2 : command.length ≤ parser_ctx.rx_buf.length - parser_ctx.start_idx :=
        hlen ▸ Nat.min_le_right _ _
      unfold PARSER_wf at h ⊢
      simp only
      omega
    · exact h
  | PARSER_MODE_HEADER =>
    simp only [PARSER_compare]
    split
    · next hmatch =>
      obtain ⟨hlt, _⟩ := List.get?_eq_some.mp hmatch.2
      unfold PARSER_wf at h ⊢
      simp only
      omega
    · exact h
  | PARSER_MODE_LAST => exact h

theorem get_parameter_wf (parser_ctx : PARSER_Context)
    (param_type : PARSER_ParameterType) (separator : Nat) (last_param : Bool)
    (h : PARSER_wf parser_ctx) :
    PARSER_wf (PARSER_get_parameter parser_ctx param_type separator last_param).2.1 := by
  rcases hr : resolveExtent parser_ctx separator last_param with st | e
  · simp only [PARSER_get_parameter, hr]
    exact h
  · have hb := resolveExtent_ok_le parser_ctx separator last_param e hr
    rcases hd : decodeByType param_type (extentBytes parser_ctx e) with st | v
    · simp only [PARSER_get_parameter, hr, hd]
      exact h
    · simp only [PARSER_get_parameter, hr, hd]
      cases last_param with
      | false => exact hb.2 rfl
      | true => exact hb.1

theorem get_byte_array_wf (parser_ctx : PARSER_Context) (separator : Nat)
    (last_param : Bool) (max_length : Nat) (h : PARSER_wf parser_ctx) :
    PARSER_wf (PARSER_get_byte_array parser_ctx separator last_param max_length).2.1 := by
  rcases hr : resolveExtent parser_ctx separator last_param with st | e
  · simp only [PARSER_get_byte_array, hr]
    exact h
  · have hb := resolveExtent_ok_le parser_ctx separator last_param e hr
    simp only [PARSER_get_byte_array, hr]
    split
    · exact h
    · split
      · exact h
      · split
        · exact h
        · cases last_param with
          | false => exact hb.2 rfl
          | true => exact hb.1

/-- C8: the invariant that the cursor stays between 0 and the number of
valid bytes holds for a freshly constructed context and is preserved by
PARSER_compare, PARSER_get_parameter and PARSER_get_byte_array, whether
they succeed or fail. -/
theorem C8_cursor_invariant (buf : List Nat) (hsep : Nat)
    (parser_ctx : PARSER_Context) (mode : PARSER_mode_t) (command : List Nat)
    (param_type : PARSER_ParameterType) (separator : Nat) (last_param : Bool)
    (max_length : Nat) :
    PARSER_wf ⟨buf, 0⟩ ∧
    (PARSER_wf parser_ctx →
      PARSER_wf (PARSER_compare hsep parser_ctx mode command).2 ∧
      PARSER_wf (PARSER_get_parameter parser_ctx param_type separator last_param).2.1 ∧
      PARSER_wf (PARSER_get_byte_array parser_ctx separator last_param max_length).2.1) :=
  ⟨Nat.zero_le _, fun h =>
    ⟨compare_wf hsep parser_ctx mode command h,
     get_parameter_wf parser_ctx param_type separator last_param h,
     get_byte_array_wf parser_ctx separator last_param max_length h⟩⟩

/-- C8 witness: the invariant is preserved on a concrete context with
cursor 1 inside a two-byte buffer. -/
theorem C8_cursor_invariant_witness :
    PARSER_wf (PARSER_compare 43 ⟨[65, 44], 1⟩ .PARSER_MODE_COMMAND [44]).2 ∧
    PARSER_wf (PARSER_get_parameter ⟨[65, 44], 1⟩ .PARSER_PARAMETER_TYPE_BOOLEAN 44 true).2.1 ∧
    PARSER_wf (PARSER_get_byte_array ⟨[65, 44], 1⟩ 44 true 8).2.1 :=
  (C8_cursor_invariant [65] 43 ⟨[65, 44], 1⟩ .PARSER_MODE_COMMAND [44]
    .PARSER_PARAMETER_TYPE_BOOLEAN 44 true 8).2 (show (1 : Nat) ≤ 2 by decide)

/-- ASCII character of a hexadecimal digit value, uppercase or lowercase. -/
def hexDigitChar (upper : Bool) (v : Nat) : Nat :=
  if v < 10 then 48 + v else (if upper then 55 else 87) + v

/-- Hexadecimal string encoding of a byte sequence, two digits per byte,
most significant digit first. -/
def hexEncode (upper : Bool) : List Nat → List Nat
  | [] => []
  | b :: rest =>
    hexDigitChar upper (b / 16) :: hexDigitChar upper (b % 16) :: hexEncode upper rest

theorem hexDigitValue_hexDigitChar :
    ∀ (upper : Bool) (v : Nat), v < 16 → hexDigitValue (hexDigitChar upper v) = v := by
  decide

theorem isHexDigit_hexDigitChar :
    ∀ (upper : Bool) (v : Nat), v < 16 → isHexDigit (hexDigitChar upper v) = true := by
  decide

theorem hexDigitChar_ge : ∀ (upper : Bool) (v : Nat), v < 16 → 48 ≤ hexDigitChar upper v := by
  decide

theorem hexEncode_length (upper : Bool) :
    ∀ B : List Nat, (hexEncode upper B).length = 2 * B.length := by
  intro B
  induction B with
  | nil => rfl
  | cons b rest ih =>
    simp only [hexEncode, List.length_cons, ih]
    omega

theorem sep_not_mem_hexEncode (upper : Bool) (sep : Nat) (hsep : sep < 48) :
    ∀ B : List Nat, (∀ b ∈ B, b < 256) → sep ∉ hexEncode upper B := by
  intro B
  induction B with
  | nil => intro _ h; exact absurd h (List.not_mem_nil sep)
  | cons b rest ih =>
    intro hB hmem
    have hdiv : b / 16 < 16 := by
      have := hB b (List.mem_cons_self b rest)
      omega
    have hmod : b % 16 < 16 := Nat.mod_lt b (by omega)
    rcases List.mem_cons.mp hmem with h1 | hmem2
    · have := hexDigitChar_ge upper (b / 16) hdiv
      omega
    · rcases List.mem_cons.mp hmem2 with h2 | hmem3
      · have := hexDigitChar_ge upper (b % 16) hmod
        omega
      · exact ih (fun x hx => hB x (List.mem_cons_of_mem b hx)) hmem3

theorem hexEncode_all_hex (upper : Bool) :
    ∀ B : List Nat, (∀ b ∈ B, b < 256) → (hexEncode upper B).all isHexDigit = true := by
  intro B
  induction B with
  | nil => intro _; rfl
  | cons b rest ih =>
    intro hB
    have hdiv : b / 16 < 16 := by
      have := hB b (List.mem_cons_self b rest)
      omega
    have hmod : b % 16 < 16 := Nat.mod_lt b (by omega)
    simp only [hexEncode, List.all_cons, Bool.and_eq_true]
    exact ⟨isHexDigit_hexDigitChar upper _ hdiv,
      isHexDigit_hexDigitChar upper _ hmod,
      ih (fun x hx => hB x (List.mem_cons_of_mem b hx))⟩

theorem hexBytes_hexEncode (upper : Bool) :
    ∀ B : List Nat, (∀ b ∈ B, b < 256) → hexBytes (hexEncode upper B) = B := by
  intro B
  induction B with
  | nil => intro _; rfl
  | cons b rest ih =>
    intro hB
    have hdiv : b / 16 < 16 := by
      have := hB b (List.mem_cons_self b rest)
      omega
    have hmod : b % 16 < 16 := Nat.mod_lt b (by omega)
    simp only [hexEncode, hexBytes]
    rw [hexDigitValue_hexDigitChar upper _ hdiv, hexDigitValue_hexDigitChar upper _ hmod,
      Nat.div_add_mod, ih (fun x hx => hB x (List.mem_cons_of_mem b hx))]

theorem scanSep_append (sep : Nat) (r : List Nat) :
    ∀ l : List Nat, sep ∉ l → scanSep sep (l ++ sep :: r) = some l.length := by
  intro l
  induction l with
  | nil => intro _; simp [scanSep]
  | cons b rest ih =>
    intro h
    have hb : ¬ b = sep := fun hb => h (hb ▸ List.mem_cons_self b rest)
    have hr2 : sep ∉ rest := fun hr => h (List.mem_cons_of_mem b hr)
    simp only [List.cons_append, scanSep, if_neg hb, List.append_eq, ih hr2,
      Option.map_some]
    rfl

/-- C3: hexadecimal round trip through PARSER_get_byte_array. For every
byte sequence B of length at most max_length, encoding B in uppercase or
lowercase hex and decoding from a fresh context returns PARSER_SUCCESS
with exactly the bytes B, extracted_length equal to the length of B, and
the cursor moved past the extent: past the separator when the parameter
is not the last one, and to the end of the line for a nonempty B when it
is the last one. -/
theorem C3_hex_round_trip (upper : Bool) (B : List Nat) (max_length : Nat)
    (hB : ∀ b ∈ B, b < 256) (hlen : B.length ≤ max_length) :
    (PARSER_get_byte_array ⟨hexEncode upper B ++ [44], 0⟩ 44 false max_length =
      (.PARSER_SUCCESS, ⟨hexEncode upper B ++ [44], 2 * B.length + 1⟩, B, B.length)) ∧
    (B ≠ [] →
      PARSER_get_byte_array ⟨hexEncode upper B, 0⟩ 44 true max_length =
        (.PARSER_SUCCESS, ⟨hexEncode upper B, 2 * B.length⟩, B, B.length)) := by
  have hmem : (44 : Nat) ∉ hexEncode upper B :=
    sep_not_mem_hexEncode upper 44 (by omega) B hB
  have hlen2 : (hexEncode upper B).length = 2 * B.length := hexEncode_length upper B
  have heven : ¬ ((hexEncode upper B).length % 2 = 1) := by
    rw [hlen2]
    omega
  have hall : (hexEncode upper B).all isHexDigit = true := hexEncode_all_hex upper B hB
  have hcount : (hexEncode upper B).length / 2 = B.length := by
    rw [hlen2]
    omega
  have hmax : ¬ max_length < (hexEncode upper B).length / 2 := by
    rw [hcount]
    omega
  have hdec : hexBytes (hexEncode upper B) = B := hexBytes_hexEncode upper B hB
  constructor
  · have hscan : scanSep 44 (hexEncode upper B ++ 44 :: []) =
        some (hexEncode upper B).length := scanSep_append 44 [] (hexEncode upper B) hmem
    have hr : resolveExtent ⟨hexEncode upper B ++ [44], 0⟩ 44 false =
        .ok (hexEncode upper B).length := by
      simp [resolveExtent, hscan]
    have hext : extentBytes ⟨hexEncode upper B ++ [44], 0⟩ (hexEncode upper B).length =
        hexEncode upper B := by
      simp [extentBytes, List.take_left]
    simp only [PARSER_get_byte_array, hr, hext, if_neg heven, hall, not_true,
      if_neg hmax, advanceCursor]
    simp [hdec, hcount, hlen2]
  · intro hne
    have hr : resolveExtent ⟨hexEncode upper B, 0⟩ 44 true =
        .ok (hexEncode upper B).length := by
      have hz : ¬ (0 = (hexEncode upper B).length) := by
        rw [hlen2]
        cases B with
        | nil => exact absurd rfl hne
        | cons b rest => simp
      simp [resolveExtent, hz]
    have hext : extentBytes ⟨hexEncode upper B, 0⟩ (hexEncode upper B).length =
        hexEncode upper B := by
      simp [extentBytes]
    simp only [PARSER_get_byte_array, hr, hext, if_neg heven, hall, not_true,
      if_neg hmax, advanceCursor]
    simp [hdec, hcount, hlen2]

/-- C3 witness: the bytes 2A FF encoded as lowercase hex followed by a
comma decode back to the same two bytes with extracted length 2. -/
theorem C3_hex_round_trip_witness :
    PARSER_get_byte_array ⟨hexEncode false [42, 255] ++ [44], 0⟩ 44 false 8 =
      (.PARSER_SUCCESS, ⟨hexEncode false [42, 255] ++ [44], 5⟩, [42, 255], 2) :=
  (C3_hex_round_trip false [42, 255] 8 (by decide) (by decide)).1

/-- From adc.c: LT6106 amplifier voltage gain. -/
def ADC_LT6106_VOLTAGE_GAIN : Nat := 59

/-- From adc.c: LT6106 shunt resistor in milliohms. -/
def ADC_LT6106_SHUNT_RESISTOR_MOHMS : Nat := 10

/-- From adc.c: LT6106 sense offset current in microamps. -/
def ADC_LT6106_OFFSET_CURRENT_UA : Nat := 25000

/-- Wrap-around modulus of the 32-bit unsigned int type. -/
def UINT32_LIM : Nat := 2 ^ 32

/-- Wrap-around modulus of the 64-bit unsigned long long type. -/
def UINT64_LIM : Nat := 2 ^ 64

/-- Embedded from ADC1_compute_iout in adc.c: the converted output
current in microamps before offset removal, as stored into the unsigned
int slot data[ADC_DATA_IDX_IOUT_UA]. The numerator and denominator are
accumulated in 64-bit unsigned arithmetic, so each product is reduced
modulo 2 to the 64; the quotient is truncated to 32 bits on assignment.
vrefint_voltage_mv stands for the ADC_VREFINT_VOLTAGE_MV macro, computed
from factory calibration words whose header is not among the sources. -/
def ADC1_iout_converted (iout_12bits vrefint_12bits vrefint_voltage_mv : Nat) : Nat :=
  let num := iout_12bits * vrefint_voltage_mv % UINT64_LIM * 1000000 % UINT64_LIM
  let den := vrefint_12bits * ADC_LT6106_VOLTAGE_GAIN % UINT64_LIM *
    ADC_LT6106_SHUNT_RESISTOR_MOHMS % UINT64_LIM
  num / den % UINT32_LIM

/-- Embedded from ADC1_compute_iout in adc.c: the final stored value of
data[ADC_DATA_IDX_IOUT_UA] after the guarded offset subtraction. -/
def ADC1_compute_iout (iout_12bits vrefint_12bits vrefint_voltage_mv : Nat) : Nat :=
  let c := ADC1_iout_converted iout_12bits vrefint_12bits vrefint_voltage_mv
  if c < ADC_LT6106_OFFSET_CURRENT_UA then 0
  else c - ADC_LT6106_OFFSET_CURRENT_UA

/-- C9: after ADC1_compute_iout, the stored output current equals the
converted current minus the 25000 microamp offset when the converted
current is at least 25000, and exactly 0 otherwise; adding the offset
back recovers the converted current in the first case, so the unsigned
subtraction never wraps below zero. -/
theorem C9_iout_offset (iout_12bits vrefint_12bits vrefint_voltage_mv : Nat)
    (hden : 0 < vrefint_12bits) :
    (ADC_LT6106_OFFSET_CURRENT_UA ≤
        ADC1_iout_converted iout_12bits vrefint_12bits vrefint_voltage_mv →
      ADC1_compute_iout iout_12bits vrefint_12bits vrefint_voltage_mv =
        ADC1_iout_converted iout_12bits vrefint_12bits vrefint_voltage_mv -
          ADC_LT6106_OFFSET_CURRENT_UA ∧
      ADC1_compute_iout iout_12bits vrefint_12bits vrefint_voltage_mv +
          ADC_LT6106_OFFSET_CURRENT_UA =
        ADC1_iout_converted iout_12bits vrefint_12bits vrefint_voltage_mv) ∧
    (ADC1_iout_converted iout_12bits vrefint_12bits vrefint_voltage_mv <
        ADC_LT6106_OFFSET_CURRENT_UA →
      ADC1_compute_iout iout_12bits vrefint_12bits vrefint_voltage_mv = 0) ∧
    ADC1_compute_iout iout_12bits vrefint_12bits vrefint_voltage_mv ≤
      ADC1_iout_converted iout_12bits vrefint_12bits vrefint_voltage_mv := by
  refine ⟨fun h => ?_, fun h => ?_, ?_⟩
  · simp only [ADC1_compute_iout]
    rw [if_neg (not_lt.mpr h)]
    exact ⟨rfl, Nat.sub_add_cancel h⟩
  · simp only [ADC1_compute_iout]
    rw [if_pos h]
  · simp only [ADC1_compute_iout]
    split
    · exact Nat.zero_le _
    · exact Nat.sub_le _ _

/-- C9 witness: a conversion of 10 milliamps keeps the value above the
offset, and adding the offset back recovers the converted current. -/
theorem C9_iout_offset_witness :
    ADC1_compute_iout 100 1 59 =
      ADC1_iout_converted 100 1 59 - ADC_LT6106_OFFSET_CURRENT_UA ∧
    ADC1_compute_iout 100 1 59 + ADC_LT6106_OFFSET_CURRENT_UA =
      ADC1_iout_converted 100 1 59 :=
  (C9_iout_offset 100 1 59 (by decide)).1 (by decide)

/-- From adc.c: number of polling iterations tolerated before a busy-wait
loop gives up. -/
def ADC_TIMEOUT_COUNT : Nat := 1000000

/-- From adc.c: number of raw samples taken for the median filter. -/
def ADC_MEDIAN_FILTER_LENGTH : Nat := 9

/-- Embedded from ADC1_single_conversion in adc.c: the busy-wait loop on
the end-of-conversion flag. eoc i is the value of the EOC bit of
ADC1 ISR at the i-th read; with budget b the loop performs b + 1 reads,
matching the source loop that returns once loop_count exceeds
ADC_TIMEOUT_COUNT. Returns true exactly when some read sees the flag. -/
def convWait (eoc : Nat → Bool) : Nat → Nat → Bool
  | idx, 0 => eoc idx
  | idx, b + 1 => if eoc idx then true else convWait eoc (idx + 1) b

/-- Embedded from ADC1_single_conversion in adc.c: the final value of the
variable pointed to by adc_result_12bits. dr is the value of the data
register at the read performed after the flag is seen; old is the value
the variable held before the call, kept unchanged on timeout because the
function returns without writing. -/
def ADC1_single_conversion (eoc : Nat → Bool) (dr old : Nat) : Nat :=
  if convWait eoc 0 ADC_TIMEOUT_COUNT then dr else old

/-- Embedded from ADC1_filtered_conversion in adc.c: the sample buffer
adc_sample_buf, initialized to zeros, each slot written by one single
conversion with its own flag trace eoc idx and data register value
dr idx. -/
def ADC1_sample_buffer (eoc : Nat → Nat → Bool) (dr : Nat → Nat) : List Nat :=
  (List.range ADC_MEDIAN_FILTER_LENGTH).map
    (fun idx => ADC1_single_conversion (eoc idx) (dr idx) 0)

theorem convWait_eq_false (eoc : Nat → Bool) :
    ∀ (b idx : Nat), (∀ i, idx ≤ i → i ≤ idx + b → eoc i = false) →
      convWait eoc idx b = false := by
  intro b
  induction b with
  | zero =>
    intro idx h
    exact h idx (Nat.le_refl idx) (Nat.le_add_right idx 0)
  | succ b ih =>
    intro idx h
    have h0 : eoc idx = false := h idx (Nat.le_refl idx) (Nat.le_add_right idx (b + 1))
    rw [convWait, if_neg (by rw [h0]; exact Bool.false_ne_true)]
    exact ih (idx + 1) (fun i hi1 hi2 => h i (by omega) (by omega))

theorem convWait_true_exists (eoc : Nat → Bool) :
    ∀ (b idx : Nat), convWait eoc idx b = true →
      ∃ i, idx ≤ i ∧ i ≤ idx + b ∧ eoc i = true := by
  intro b
  induction b with
  | zero =>
    intro idx h
    exact ⟨idx, Nat.le_refl idx, Nat.le_add_right idx 0, h⟩
  | succ b ih =>
    intro idx h
    by_cases h0 : eoc idx = true
    · exact ⟨idx, Nat.le_refl idx, Nat.le_add_right idx (b + 1), h0⟩
    · rw [convWait, if_neg h0] at h
      obtain ⟨i, hi1, hi2, hi3⟩ := ih (idx + 1) h
      exact ⟨i, by omega, by omega, hi3⟩

/-- C10: ADC1_single_conversion yields a value different from the prior
contents of the result variable only if the end-of-conversion flag is
observed within the ADC_TIMEOUT_COUNT polling budget; when every poll in
the budget reads the flag clear, the variable keeps its prior value, and
the corresponding slot of the sample buffer of ADC1_filtered_conversion
keeps its initial value 0. -/
theorem C10_single_conversion_frame (eoc : Nat → Bool) (dr old : Nat)
    (eocs : Nat → Nat → Bool) (drs : Nat → Nat) (idx : Nat) :
    (ADC1_single_conversion eoc dr old ≠ old →
      ∃ n, n ≤ ADC_TIMEOUT_COUNT ∧ eoc n = true) ∧
    ((∀ n, n ≤ ADC_TIMEOUT_COUNT → eoc n = false) →
      ADC1_single_conversion eoc dr old = old) ∧
    (idx < ADC_MEDIAN_FILTER_LENGTH →
      (∀ n, n ≤ ADC_TIMEOUT_COUNT → eocs idx n = false) →
      (ADC1_sample_buffer eocs drs).get? idx = some 0) := by
  have hsingle : ∀ (f : Nat → Bool) (d o : Nat),
      (∀ n, n ≤ ADC_TIMEOUT_COUNT → f n = false) →
      ADC1_single_conversion f d o = o := by
    intro f d o hf
    have hw : convWait f 0 ADC_TIMEOUT_COUNT = false :=
      convWait_eq_false f ADC_TIMEOUT_COUNT 0 (fun i _ hi2 => hf i (by omega))
    simp [ADC1_single_conversion, hw]
  refine ⟨fun h => ?_, hsingle eoc dr old, fun hidx hto => ?_⟩
  · rcases hw : convWait eoc 0 ADC_TIMEOUT_COUNT with _ | _
    · exact absurd (by simp [ADC1_single_conversion, hw]) h
    · obtain ⟨i, _, hi2, hi3⟩ := convWait_true_exists eoc ADC_TIMEOUT_COUNT 0 hw
      exact ⟨i, by omega, hi3⟩
  · have hmap : (ADC1_sample_buffer eocs drs).get? idx =
        ((List.range ADC_MEDIAN_FILTER_LENGTH).get? idx).map
          (fun j => ADC1_single_conversion (eocs j) (drs j) 0) := by
      simp [ADC1_sample_buffer]
    rw [hmap, List.get?_range hidx]
    simp [hsingle (eocs idx) (drs idx) 0 hto]

/-- C10 witness: with the flag never set, a single conversion leaves the
result variable at its prior value. -/
theorem C10_single_conversion_frame_witness :
    ADC1_single_conversion (fun _ => false) 5 7 = 7 :=
  (C10_single_conversion_frame (fun _ => false) 5 7 (fun _ _ => false)
    (fun _ => 0) 0).2.1 (fun _ _ => rfl)

end LVRM
